import Mathlib

/-!
Verification of the hard core of `vibing-steampunk` (an ADT client for SAP
ABAP systems) against its natural-language specification.

The development shallowly embeds the relevant Go source files:
  * `pkg/adt/client.go` — reader operations and URL construction,
  * the call-graph analysis operations (`FlattenCallGraph`,
    `AnalyzeCallGraph`, `CompareCallGraphs`),
  * `cmd/vsp/daemon.go` — the debug-daemon session endpoints,
  * the surgical message-class XML editor (modelled from the spec, its
    implementation file is not part of the sources at hand).

Strings are manipulated through executable helpers over `List Char`
(`String.toUpper` and friends do not reduce in the kernel); Go `int`
fields become `Int` or `Nat` as noted at each definition; Go maps become
association lists with overwrite-on-insert; fallible Go code returns
`Except`.  Go's `float64` coverage ratio is modelled exactly as `ℚ`.
-/

namespace VSP

/-! ## String helpers (executable models of the Go string primitives) -/

/-- Model of Go `strings.ToUpper` restricted to the ASCII range (object
names in ADT are ASCII identifiers; `Char.toUpper` only maps `a`-`z`). -/
def strToUpper (s : String) : String := ⟨s.data.map Char.toUpper⟩

/-- Model of Go `strings.ToLower` restricted to the ASCII range. -/
def strToLower (s : String) : String := ⟨s.data.map Char.toLower⟩

/-- Split a character list at every occurrence of a separator character.
Mirrors Go `strings.Split(s, sep)` for a one-character separator: the
result always has one more part than there are separators. -/
def splitChar (sep : Char) : List Char → List (List Char)
  | [] => [[]]
  | c :: cs =>
    match splitChar sep cs with
    | [] => if c = sep then [[], [c]] else [[c]]
    | h :: t => if c = sep then [] :: h :: t else (c :: h) :: t

/-- Model of Go `strings.Split(s, "\n")`. -/
def strLines (s : String) : List String := (splitChar '\n' s.data).map fun l => ⟨l⟩

/-- Model of Go `strings.Join(parts, sep)`. -/
def joinSep (sep : String) : List String → String
  | [] => ""
  | [x] => x
  | x :: xs => x ++ sep ++ joinSep sep xs

/-! ## URL percent-encoding (Go `net/url.PathEscape`)

`url.PathEscape` escapes a string so it can appear in a URL path segment:
alphanumerics and `-._~` stay, the sub-delims `$&+=@` (and a few more)
stay, while `/ ; , ?` and everything else become `%XX` with upper-case
hex.  The model covers the ASCII range (ADT object names are ASCII). -/

def isUnreservedChar (c : Char) : Bool :=
  decide (('A' ≤ c ∧ c ≤ 'Z') ∨ ('a' ≤ c ∧ c ≤ 'z') ∨ ('0' ≤ c ∧ c ≤ '9') ∨
    c = '-' ∨ c = '_' ∨ c = '.' ∨ c = '~')

def shouldEscapePathSegment (c : Char) : Bool :=
  if isUnreservedChar c then false
  else if decide (c = '$' ∨ c = '&' ∨ c = '+' ∨ c = ',' ∨ c = '/' ∨ c = ';' ∨
      c = '=' ∨ c = '?' ∨ c = '@') then
    decide (c = '/' ∨ c = ';' ∨ c = ',' ∨ c = '?')
  else true

/-- Upper-case hexadecimal digit for `n < 16` (Go uses upper-case hex in
percent-escapes, e.g. `%2F`). -/
def hexUpperDigit (n : Nat) : Char :=
  if n < 10 then Char.ofNat (48 + n) else Char.ofNat (55 + n)

def escapePathChar (c : Char) : List Char :=
  if shouldEscapePathSegment c then
    ['%', hexUpperDigit (c.toNat / 16), hexUpperDigit (c.toNat % 16)]
  else [c]

/-- Model of Go `url.PathEscape` on the ASCII range. -/
def pathEscape (s : String) : String := ⟨(s.data.map escapePathChar).flatten⟩

/-! ## Object addressing (the per-kind request URLs of `pkg/adt/client.go`)

Each arm mirrors the path built by the corresponding reader:
`GetProgram`, `GetClass`, `GetInterface`, `GetInclude`, `GetDDLS`,
`GetBDEF`, `GetSRVD`, `GetSRVB`, `GetTable`, `GetView`, `GetStructure`,
`GetMessageClass`.  Note that `GetTable` and `GetStructure` interpolate
the upper-cased name *without* `url.PathEscape`, and `GetMessageClass`
lower-cases the (already upper-cased) name before escaping. -/

inductive ObjectKind : Type where
  | program
  | oClass
  | oInterface
  | oInclude
  | ddls
  | bdef
  | srvd
  | srvb
  | table
  | view
  | oStructure
  | messageClass
deriving DecidableEq, Repr

def readRequestPath : ObjectKind → String → String
  | .program, n => "/sap/bc/adt/programs/programs/" ++ pathEscape (strToUpper n) ++ "/source/main"
  | .oClass, n => "/sap/bc/adt/oo/classes/" ++ pathEscape (strToUpper n) ++ "/source/main"
  | .oInterface, n => "/sap/bc/adt/oo/interfaces/" ++ pathEscape (strToUpper n) ++ "/source/main"
  | .oInclude, n => "/sap/bc/adt/programs/includes/" ++ pathEscape (strToUpper n) ++ "/source/main"
  | .ddls, n => "/sap/bc/adt/ddic/ddl/sources/" ++ pathEscape (strToUpper n) ++ "/source/main"
  | .bdef, n => "/sap/bc/adt/bo/behaviordefinitions/" ++ pathEscape (strToUpper n) ++ "/source/main"
  | .srvd, n => "/sap/bc/adt/ddic/srvd/sources/" ++ pathEscape (strToUpper n) ++ "/source/main"
  | .srvb, n => "/sap/bc/adt/businessservices/bindings/" ++ pathEscape (strToUpper n)
  | .table, n => "/sap/bc/adt/ddic/tables/" ++ strToUpper n ++ "/source/main"
  | .view, n => "/sap/bc/adt/ddic/views/" ++ pathEscape (strToUpper n) ++ "/source/main"
  | .oStructure, n => "/sap/bc/adt/ddic/structures/" ++ strToUpper n ++ "/source/main"
  | .messageClass, n => "/sap/bc/adt/messageclass/" ++ pathEscape (strToLower (strToUpper n))

/-- Path of `GetFunction` (function-module source): both group and
function-module name are upper-cased and escaped. -/
def functionModulePath (groupName functionName : String) : String :=
  "/sap/bc/adt/functions/groups/" ++ pathEscape (strToUpper groupName) ++
    "/fmodules/" ++ pathEscape (strToUpper functionName) ++ "/source/main"

/-! ## Client and transport (the slice of `client.go` the claims need)

The `Transport.Request` internals (CSRF, cookies, HTTP) live outside the
sources at hand; for the claims about the readers only two observables
matter: which requests reach the transport, and the response handed back.
The transport is therefore a response function plus a request log. -/

/-- Operation classes of the safety policy (spec §3). -/
inductive OperationType : Type where
  | read
  | write
  | create
  | delete
  | execute
  | lock
  | debug
  | transport
deriving DecidableEq, Repr

/-- Safety configuration.  `CheckOperation`'s body is not among the
sources at hand, so the classifier is kept abstract: any allow/deny
function can be plugged in.  `Except.error` is a denial. -/
structure SafetyConfig where
  checkOp : OperationType → String → Except String Unit

/-- The slice of `Config` the reader operations use. -/
structure Config where
  safety : SafetyConfig

/-- Embedding of `Client.checkSafety` (client.go:40-42). -/
def checkSafety (cfg : Config) (op : OperationType) (opName : String) : Except String Unit :=
  cfg.safety.checkOp op opName

/-- Log of requests issued to `Transport.Request`, as (method, path). -/
structure TransportLog where
  requests : List (String × String)
deriving DecidableEq, Repr

/-- One `transport.Request` call: the request is recorded and the
response function supplies the outcome. -/
def transportRequest (respond : String → String → Except String String)
    (log : TransportLog) (method path : String) :
    TransportLog × Except String String :=
  ({ requests := log.requests ++ [(method, path)] }, respond method path)

/-- Embedding of `Client.GetProgram` (client.go:84-97): upper-case the
name, build the source path, issue the GET.  The source contains no
`checkSafety` call on this path. -/
def clientGetProgram (cfg : Config) (respond : String → String → Except String String)
    (log : TransportLog) (programName : String) :
    TransportLog × Except String String :=
  let programName := strToUpper programName
  let sourcePath := "/sap/bc/adt/programs/programs/" ++ pathEscape programName ++ "/source/main"
  match transportRequest respond log "GET" sourcePath with
  | (log2, .error e) => (log2, .error ("getting program source: " ++ e))
  | (log2, .ok body) => (log2, .ok body)

/-- Embedding of `Client.GetClass` (client.go:104-120): returns the map
of include names to sources (here: an association list with `main`). -/
def clientGetClass (cfg : Config) (respond : String → String → Except String String)
    (log : TransportLog) (className : String) :
    TransportLog × Except String (List (String × String)) :=
  let className := strToUpper className
  let sourcePath := "/sap/bc/adt/oo/classes/" ++ pathEscape className ++ "/source/main"
  match transportRequest respond log "GET" sourcePath with
  | (log2, .error e) => (log2, .error ("getting class source: " ++ e))
  | (log2, .ok body) => (log2, .ok [("main", body)])

/-- Embedding of `Client.GetTable` (client.go:545-558).  The upper-cased
name is interpolated without `url.PathEscape`. -/
def clientGetTable (cfg : Config) (respond : String → String → Except String String)
    (log : TransportLog) (tableName : String) :
    TransportLog × Except String String :=
  let tableName := strToUpper tableName
  let sourcePath := "/sap/bc/adt/ddic/tables/" ++ tableName ++ "/source/main"
  match transportRequest respond log "GET" sourcePath with
  | (log2, .error e) => (log2, .error ("getting table source: " ++ e))
  | (log2, .ok body) => (log2, .ok body)

/-- Decoded message class (client.go:430-434); messages are
(msgno, msgtext) pairs. -/
structure MessageClassRec where
  name : String
  descr : String
  messages : List (String × String)
deriving DecidableEq, Repr

/-- Embedding of `Client.GetMessageClass` (client.go:438-459): the name
is upper-cased, the request path uses `url.PathEscape(strings.ToLower(name))`,
and after a successful parse the `Name` field is overwritten with the
upper-cased input name.  XML unmarshaling is abstracted as `parse`. -/
def clientGetMessageClass (cfg : Config) (respond : String → String → Except String String)
    (parse : String → Except String MessageClassRec)
    (log : TransportLog) (msgClassName : String) :
    TransportLog × Except String MessageClassRec :=
  let msgClassName := strToUpper msgClassName
  let path := "/sap/bc/adt/messageclass/" ++ pathEscape (strToLower msgClassName)
  match transportRequest respond log "GET" path with
  | (log2, .error e) => (log2, .error ("getting message class: " ++ e))
  | (log2, .ok body) =>
    match parse body with
    | .error e => (log2, .error ("parsing message class XML: " ++ e))
    | .ok mc => (log2, .ok { mc with name := msgClassName })

/-! ## Class method source extraction (client.go:154-198)

`GetClassMethodSource` first fetches the method list (object structure)
and the full main source over the transport; the interesting logic — the
selection and line extraction — is pure and embedded here with the
already-fetched data as inputs. -/

/-- Method entry of the class object structure.  Go uses `int` line
numbers; ADT reports non-negative 1-based lines, `0` meaning "no
implementation", so `Nat` is used. -/
structure MethodInfo where
  name : String
  implementationStart : Nat
  implementationEnd : Nat
deriving DecidableEq, Repr

/-- The `for`-loop of client.go:167-173: first method whose name matches. -/
def findMethod (methods : List MethodInfo) (methodName : String) : Option MethodInfo :=
  methods.find? fun m => m.name = methodName

/-- Go slice expression `l[lo:hi]` on a line list: defined when
`lo ≤ hi ≤ len`, a runtime panic otherwise (modelled as `none`). -/
def goSlice (l : List String) (lo hi : Nat) : Option (List String) :=
  if lo ≤ hi ∧ hi ≤ l.length then some ((l.take hi).drop lo) else none

/-- Embedding of `GetClassMethodSource` (client.go:156-198) given the
fetched object structure and full class source: upper-case the method
name, find the method, reject a missing implementation (start or end 0),
split the source on newlines, reject `end > len(lines)`, extract
`lines[start-1:end]` and re-join. -/
def getClassMethodSourcePure (methods : List MethodInfo) (fullSource : String)
    (className methodName : String) : Except String String :=
  let methodName := strToUpper methodName
  match findMethod methods methodName with
  | none => .error ("method " ++ methodName ++ " not found in class " ++ strToUpper className)
  | some method =>
    if method.implementationStart = 0 ∨ method.implementationEnd = 0 then
      .error ("method " ++ methodName ++ " has no implementation")
    else
      let lines := strLines fullSource
      if method.implementationEnd > lines.length then
        .error "method line range exceeds source lines"
      else
        match goSlice lines (method.implementationStart - 1) method.implementationEnd with
        | some methodLines => .ok (joinSep "\n" methodLines)
        | none => .error "slice bounds out of range"

/-! ## Debug daemon session endpoints (cmd/vsp/daemon.go)

The daemon keeps at most one `DebugSession`; the HTTP handlers below are
embedded as state transformers.  Listener progress (the goroutine of
`runListener`) is outside these handlers and not needed by the claims,
which are about the immediate handler responses. -/

/-- Session record (daemon.go:29-43); statuses are the literal strings
used by the Go code: waiting, caught, attached, attach_failed, stepping,
stopped, error, timeout. -/
structure DbgSession where
  id : String
  status : String
  user : String
  startTime : Nat
  debuggeeId : String
  currentUri : String
  currentLine : Int
  errorMsg : String
deriving DecidableEq, Repr

/-- The daemon's single-session slot. -/
structure DaemonState where
  session : Option DbgSession
deriving DecidableEq, Repr

/-- Payload of a JSON envelope, as far as the claims observe it. -/
inductive ReplyData : Type where
  | statusField (v : String)
  | snapshot (s : DbgSession)
  | started (id : String) (status : String) (user : String) (timeout : Nat)
  | message (m : String)
  | errorMsg (m : String)
deriving DecidableEq, Repr

/-- HTTP reply: status code plus the `{success, data?, error?}` envelope. -/
structure Reply : Type where
  status : Nat
  success : Bool
  data : ReplyData
deriving DecidableEq, Repr

/-- Embedding of `getSession` (daemon.go:297-313): with no session the
handler answers 200 `{success:true, data:{status:"no_session"}}`;
otherwise 200 with the session snapshot. -/
def getSession (st : DaemonState) : Reply :=
  match st.session with
  | none => { status := 200, success := true, data := .statusField "no_session" }
  | some s => { status := 200, success := true, data := .snapshot s }

/-- Embedding of `startSession` (daemon.go:315-356).  Defaults: timeout 0
becomes 60, empty user becomes the configured user.  If a session exists
whose status is not "stopped" the handler answers 409 and leaves the
state alone; otherwise it installs a fresh `waiting` session (id derived
from the current time, modelled by `now`) and answers 200.  The listener
goroutine it spawns is not part of this transition. -/
def startSession (cfgUsername : String) (st : DaemonState)
    (reqUser : String) (reqTimeout : Nat) (now : Nat) : DaemonState × Reply :=
  let timeout := if reqTimeout = 0 then 60 else reqTimeout
  let user := if reqUser = "" then cfgUsername else reqUser
  let fresh : DbgSession :=
    { id := "dbg-" ++ toString now, status := "waiting", user := user,
      startTime := now, debuggeeId := "", currentUri := "", currentLine := 0,
      errorMsg := "" }
  let go : DaemonState × Reply :=
    ({ session := some fresh },
     { status := 200, success := true,
       data := .started fresh.id fresh.status fresh.user timeout })
  match st.session with
  | some s => if s.status ≠ "stopped" then (st, { status := 409, success := false, data := .errorMsg "session already active" }) else go
  | none => go

/-- Embedding of `stopSession` (daemon.go:427-451): with no session the
handler answers 404 `{success:false, error:"no active session"}`;
otherwise it detaches, marks the session "stopped" and answers 200. -/
def stopSession (st : DaemonState) : DaemonState × Reply :=
  match st.session with
  | none => (st, { status := 404, success := false, data := .errorMsg "no active session" })
  | some s =>
    ({ session := some { s with status := "stopped" } },
     { status := 200, success := true, data := .message "session stopped" })

/-! ## Call-graph analysis (analysis operations of pkg/adt)

`CallGraphNode` mirrors the Go struct (URI, Name, Type, Description,
Line, Column, Children).  The captured structure is a tree. -/

inductive CallGraphNode : Type where
  | mk (uri name ty descr : String) (line col : Int) (children : List CallGraphNode)

def CallGraphNode.uri : CallGraphNode → String
  | .mk u _ _ _ _ _ _ => u

def CallGraphNode.name : CallGraphNode → String
  | .mk _ n _ _ _ _ _ => n

def CallGraphNode.line : CallGraphNode → Int
  | .mk _ _ _ _ l _ _ => l

def CallGraphNode.children : CallGraphNode → List CallGraphNode
  | .mk _ _ _ _ _ _ cs => cs

/-- Mirrors the Go `CallGraphEdge` struct. -/
structure CallGraphEdge : Type where
  callerURI : String
  callerName : String
  calleeURI : String
  calleeName : String
  line : Int
deriving DecidableEq, Repr

/-! Embedding of `FlattenCallGraph`'s recursive closure: for each child
of the parent, append the parent→child edge, then recurse into the
child (pre-order, no deduplication). -/
mutual

def flattenFrom (parentURI parentName : String) : List CallGraphNode → List CallGraphEdge
  | [] => []
  | c :: cs =>
    { callerURI := parentURI, callerName := parentName,
      calleeURI := c.uri, calleeName := c.name, line := c.line }
      :: (flattenNode c ++ flattenFrom parentURI parentName cs)

def flattenNode : CallGraphNode → List CallGraphEdge
  | .mk uri name _ _ _ _ cs => flattenFrom uri name cs

end

/-- Embedding of `FlattenCallGraph` including the `nil`-root guard. -/
def flattenCallGraph : Option CallGraphNode → List CallGraphEdge
  | none => []
  | some root => flattenNode root

/-- Mirrors the Go `CallGraphStats` struct; `NodesByType` (a Go map) is
an association list. -/
structure CallGraphStats : Type where
  totalNodes : Nat
  totalEdges : Nat
  maxDepth : Nat
  nodesByType : List (String × Nat)
  uniqueNodes : List String
deriving DecidableEq, Repr

/-- The traversal state of `AnalyzeCallGraph`: the `seen` set (a Go
`map[string]bool`, here the insertion-ordered list of its keys) plus the
statistics being accumulated. -/
structure AnalyzeAcc : Type where
  seen : List String
  stats : CallGraphStats
deriving DecidableEq, Repr

/-- Go `stats.NodesByType[ty]++` on the association-list model. -/
def bumpType (m : List (String × Nat)) (ty : String) : List (String × Nat) :=
  if m.any (fun p => p.1 == ty) then
    m.map fun p => if p.1 == ty then (p.1, p.2 + 1) else p
  else m ++ [(ty, 1)]

/-! Embedding of the `traverse` closure of `AnalyzeCallGraph`: update the
running maximum depth, count the node once per unseen URI (recording its
type and name), then visit the children, counting one edge per child. -/
mutual

def analyzeNode (acc : AnalyzeAcc) (depth : Nat) : CallGraphNode → AnalyzeAcc
  | .mk uri name ty _ _ _ cs =>
    let acc1 : AnalyzeAcc :=
      { acc with stats := { acc.stats with maxDepth := max acc.stats.maxDepth depth } }
    let acc2 : AnalyzeAcc :=
      if uri ∈ acc1.seen then acc1
      else
        { seen := acc1.seen ++ [uri],
          stats := { acc1.stats with
                     totalNodes := acc1.stats.totalNodes + 1,
                     nodesByType := bumpType acc1.stats.nodesByType ty,
                     uniqueNodes := acc1.stats.uniqueNodes ++ [name] } }
    analyzeForest acc2 (depth + 1) cs

def analyzeForest (acc : AnalyzeAcc) (depth : Nat) : List CallGraphNode → AnalyzeAcc
  | [] => acc
  | c :: cs =>
    let acc1 : AnalyzeAcc :=
      { acc with stats := { acc.stats with totalEdges := acc.stats.totalEdges + 1 } }
    analyzeForest (analyzeNode acc1 depth c) depth cs

end

/-- Embedding of `AnalyzeCallGraph` including the `nil`-root guard
(empty stats) and the initial state (`seen` empty, depth 0). -/
def analyzeCallGraph : Option CallGraphNode → CallGraphStats
  | none => { totalNodes := 0, totalEdges := 0, maxDepth := 0, nodesByType := [], uniqueNodes := [] }
  | some root =>
    (analyzeNode { seen := [],
                   stats := { totalNodes := 0, totalEdges := 0, maxDepth := 0,
                              nodesByType := [], uniqueNodes := [] } } 0 root).stats

/-! Specification-side tree measures used to state the claims. -/

/-! Total number of parent→child pairs in the tree. -/
mutual

def countPairsNode : CallGraphNode → Nat
  | .mk _ _ _ _ _ _ cs => cs.length + countPairsForest cs

def countPairsForest : List CallGraphNode → Nat
  | [] => 0
  | c :: cs => countPairsNode c + countPairsForest cs

end

/-! URIs of all nodes of the tree in pre-order (traversal order of both
`FlattenCallGraph` and `AnalyzeCallGraph`). -/
mutual

def preorderURIsNode : CallGraphNode → List String
  | .mk uri _ _ _ _ _ cs => uri :: preorderURIsForest cs

def preorderURIsForest : List CallGraphNode → List String
  | [] => []
  | c :: cs => preorderURIsNode c ++ preorderURIsForest cs

end

/-! Number of parent→child occurrences in the tree whose (parent name,
child name) pair equals `pr` — each occurrence counted, no dedup. -/
mutual

def nameOccFrom (pr : String × String) (parentName : String) : List CallGraphNode → Nat
  | [] => 0
  | c :: cs =>
    (if parentName = pr.1 ∧ c.name = pr.2 then 1 else 0) +
      nameOccNode pr c + nameOccFrom pr parentName cs

def nameOccNode (pr : String × String) : CallGraphNode → Nat
  | .mk _ name _ _ _ _ cs => nameOccFrom pr name cs

end

/-! ## Call-graph comparison (`CompareCallGraphs`)

Go builds two `map[string]CallGraphEdge` lookups keyed by
`CallerName + "->" + CalleeName` (later edges overwrite earlier ones),
then partitions.  The maps are association lists with overwrite; Go's
random map-iteration order is modelled as the insertion order, which
yields the same partition sets and counts.  `CoverageRatio` is a Go
`float64`; it is modelled exactly as `ℚ`. -/

def edgeKey (e : CallGraphEdge) : String := e.callerName ++ "->" ++ e.calleeName

/-- Go map insert `m[k] = e` on the association-list model. -/
def mapPut (m : List (String × CallGraphEdge)) (k : String) (e : CallGraphEdge) :
    List (String × CallGraphEdge) :=
  if m.any (fun p => p.1 == k) then
    m.map fun p => if p.1 == k then (k, e) else p
  else m ++ [(k, e)]

/-- Go map membership `_, ok := m[k]`. -/
def mapHas (m : List (String × CallGraphEdge)) (k : String) : Bool :=
  m.any fun p => p.1 == k

/-- The `for … range edges` loops building `staticSet` / `actualSet`. -/
def buildEdgeMap (edges : List CallGraphEdge) : List (String × CallGraphEdge) :=
  edges.foldl (fun m e => mapPut m (edgeKey e) e) []

/-- Mirrors the Go `CallGraphComparison` struct; `coverage` is Go's
`CoverageRatio` field. -/
structure CallGraphComparison : Type where
  commonEdges : List CallGraphEdge
  staticOnly : List CallGraphEdge
  actualOnly : List CallGraphEdge
  coverage : ℚ

/-- Embedding of `CompareCallGraphs`. -/
def compareCallGraphs (staticEdges actualEdges : List CallGraphEdge) : CallGraphComparison :=
  let staticSet := buildEdgeMap staticEdges
  let actualSet := buildEdgeMap actualEdges
  let common := (staticSet.filter fun p => mapHas actualSet p.1).map Prod.snd
  let staticOnly := (staticSet.filter fun p => !mapHas actualSet p.1).map Prod.snd
  let actualOnly := (actualSet.filter fun p => !mapHas staticSet p.1).map Prod.snd
  { commonEdges := common
    staticOnly := staticOnly
    actualOnly := actualOnly
    coverage :=
      if staticEdges.length > 0 then (common.length : ℚ) / (staticEdges.length : ℚ) else 0 }

/-! ## Surgical message-class XML editor

The implementation file of `modifyMessageClassXML` is not among the
sources at hand (only its tests are), so the editor is modelled from the
spec (§4.3) as text transformations with anchor-based scanning. -/

/-- Prefix/remainder split of `s` at the first occurrence of `pat`
(`none` when `pat` does not occur). -/
def splitFirstAux (pat : List Char) : List Char → Option (List Char × List Char)
  | [] => if pat = [] then some ([], []) else none
  | c :: cs =>
    if pat.isPrefixOf (c :: cs) then some ([], (c :: cs).drop pat.length)
    else
      match splitFirstAux pat cs with
      | none => none
      | some (pre, post) => some (c :: pre, post)

def splitFirst (s pat : String) : Option (String × String) :=
  match splitFirstAux pat.data s.data with
  | none => none
  | some (pre, post) => some (⟨pre⟩, ⟨post⟩)

/-- Everything before the last occurrence of the character `ch` (the
whole string when `ch` does not occur). -/
def takeBeforeLastChar (ch : Char) (s : String) : String :=
  match splitChar ch s.data with
  | [] => s
  | parts => if parts.length = 1 then s else ⟨List.intercalate [ch] parts.dropLast⟩

/-- Everything after the last occurrence of the character `ch`. -/
def afterLastChar (ch : Char) (s : String) : String :=
  ⟨(splitChar ch s.data).getLastD []⟩

def strEndsWith (s sfx : String) : Bool := sfx.data.isSuffixOf s.data

/-- Modelled from the spec: the special-character escape (`&`, `<`, `>`,
`"`) applied to inserted and updated text values (§4.3). -/
def escapeXMLChar (c : Char) : List Char :=
  if c = '&' then "&amp;".data
  else if c = '<' then "&lt;".data
  else if c = '>' then "&gt;".data
  else if c = '"' then "&quot;".data
  else [c]

def escapeXML (s : String) : String := ⟨(s.data.map escapeXMLChar).flatten⟩

/-- The scanning anchor identifying the `messages` element of a given
msgno: the byte sequence `msgno="NNN"` (a namespaced `mc:msgno="NNN"`
contains it as well). -/
def msgnoAnchor (msgno : String) : String := "msgno=\"" ++ msgno ++ "\""

def containsAnchor (doc msgno : String) : Bool :=
  (splitFirst doc (msgnoAnchor msgno)).isSome

/-- Modelled from the spec: replace only the `msgtext` attribute's value
of the `messages` element carrying the given msgno, in place; all other
bytes are preserved (§4.3). -/
def updateMsgText (doc msgno newText : String) : String :=
  match splitFirst doc (msgnoAnchor msgno) with
  | none => doc
  | some (pre, post) =>
    match splitFirst post "msgtext=\"" with
    | none => doc
    | some (mid, rest) =>
      match splitFirst rest "\"" with
      | none => doc
      | some (_, afterVal) =>
        pre ++ msgnoAnchor msgno ++ mid ++ "msgtext=\"" ++ newText ++ "\"" ++ afterVal

/-- Modelled from the spec: delete the entire `messages` element of the
given msgno, handling both the self-closing and the paired form
(including nested children such as `atom:link`) (§4.3). -/
def deleteMessage (doc msgno : String) : String :=
  match splitFirst doc (msgnoAnchor msgno) with
  | none => doc
  | some (pre, post) =>
    let keepPre := takeBeforeLastChar '<' pre
    match splitFirst post ">" with
    | none => keepPre
    | some (attrs, afterGt) =>
      if strEndsWith attrs "/" then keepPre ++ afterGt
      else
        match splitFirst afterGt "messages>" with
        | none => keepPre
        | some (_, afterClose) => keepPre ++ afterClose

/-- Modelled from the spec: the namespace prefix observed on sibling
`messages` elements (for example `mc:`), or none if none (§4.3). -/
def observedPrefix (doc : String) : String :=
  match splitFirst doc ":messages " with
  | some (pre, _) => afterLastChar '<' pre ++ ":"
  | none => ""

/-- Modelled from the spec: append a new self-closing `messages` element
immediately before the `</…messageClass>` close tag, using the observed
namespace prefix, and attach a `lockhandle="…"` attribute drawn from the
caller-supplied lock-handle map (§4.3). -/
def insertMessage (doc msgno text : String) (lockHandle : Option String) : String :=
  let pfx := observedPrefix doc
  let lockAttr :=
    match lockHandle with
    | some h => " " ++ pfx ++ "lockhandle=\"" ++ h ++ "\""
    | none => ""
  let elem := "<" ++ pfx ++ "messages " ++ pfx ++ "msgno=\"" ++ msgno ++ "\" " ++
    pfx ++ "msgtext=\"" ++ text ++ "\"" ++ lockAttr ++ "/>"
  let closeTag := "</" ++ pfx ++ "messageClass>"
  match splitFirst doc closeTag with
  | none => doc
  | some (pre, post) => pre ++ elem ++ "\n" ++ closeTag ++ post

/-- Modelled from the spec: `modifyMessageClassXML` — the surgical
edit of a message-class document (§4.3).  `updates` maps msgno to the
new text (empty text requests deletion); `lockHandles` maps msgno to the
lock handle attached on insert.  Returns the edited bytes, the list of
successfully updated msgnos with their text, and the list of deleted
msgnos.  (Go returns an always-`nil` error alongside on these paths.) -/
def modifyMessageClassXML (input : String) (updates : List (String × String))
    (lockHandles : List (String × String)) :
    String × List (String × String) × List String :=
  updates.foldl
    (fun acc u =>
      let doc := acc.1
      let upd := acc.2.1
      let del := acc.2.2
      if containsAnchor doc u.1 then
        if u.2 = "" then (deleteMessage doc u.1, upd, del ++ [u.1])
        else (updateMsgText doc u.1 (escapeXML u.2), upd ++ [u], del)
      else
        if u.2 = "" then acc
        else (insertMessage doc u.1 (escapeXML u.2) (lockHandles.lookup u.1), upd ++ [u], del))
    (input, [], [])

/-- Test whether an edge carries the given (caller name, callee name)
pair — the no-deduplication contract of `FlattenCallGraph` is stated by
counting such edges. -/
def pairPred (pr : String × String) (e : CallGraphEdge) : Bool :=
  e.callerName == pr.1 && e.calleeName == pr.2

/-- Insert into the key list of a Go `map[string]bool` used as a set:
a no-op when present, appended otherwise. -/
def insertNew (s : List String) (u : String) : List String :=
  if u ∈ s then s else s ++ [u]

/-- The key list of the `seen` set after inserting every element of `l`
in order. -/
def dedupAppend (s l : List String) : List String := l.foldl insertNew s

/-! ## Shared helper lemmas -/

theorem data_infix_mid (pre mid suf : String) :
    mid.data <:+: (pre ++ mid ++ suf).data :=
  ⟨pre.data, suf.data, by simp [String.data_append]⟩

theorem data_infix_end (pre mid : String) :
    mid.data <:+: (pre ++ mid).data :=
  ⟨pre.data, [], by simp [String.data_append]⟩

/-! ## C1 — SafetyPolicy and the reader operations -/

/-- C1 counterexample.  The claim: every Reader operation applies the
SafetyPolicy (class `Read`) before its Transport request, so a denying
policy yields a denial and zero Transport requests.  Counterexample at
the explicit input `GetProgram "ztest"` under the deny-everything
policy: exactly one Transport request is issued and the body is
returned untouched — no denial. -/
theorem getProgram_counterexample_denying_policy :
    (clientGetProgram { safety := { checkOp := fun _ _ => .error "denied by policy" } }
        (fun _ _ => .ok "REPORT ztest.") { requests := [] } "ztest").1.requests.length = 1 ∧
    (clientGetProgram { safety := { checkOp := fun _ _ => .error "denied by policy" } }
        (fun _ _ => .ok "REPORT ztest.") { requests := [] } "ztest").2 = .ok "REPORT ztest." :=
  ⟨rfl, rfl⟩

/-- C1 amended: the reader operations of client.go (`GetProgram`,
`GetClass`, `GetTable`, …) never consult the safety policy: their result
is independent of the configured policy, and exactly one Transport
request (the GET on the object's source path) is issued in every case,
denying policy or not.  (`checkSafety` exists, client.go:40-42, but is
not called on these paths.) -/
theorem readers_bypass_safety_policy (cfg cfg2 : Config)
    (respond : String → String → Except String String) (log : TransportLog) (n : String) :
    clientGetProgram cfg respond log n = clientGetProgram cfg2 respond log n ∧
    (clientGetProgram cfg respond log n).1.requests
      = log.requests ++ [("GET", readRequestPath .program n)] ∧
    clientGetClass cfg respond log n = clientGetClass cfg2 respond log n ∧
    (clientGetClass cfg respond log n).1.requests
      = log.requests ++ [("GET", readRequestPath .oClass n)] ∧
    clientGetTable cfg respond log n = clientGetTable cfg2 respond log n ∧
    (clientGetTable cfg respond log n).1.requests
      = log.requests ++ [("GET", readRequestPath .table n)] := by
  refine ⟨rfl, ?_, rfl, ?_, rfl, ?_⟩
  · rcases hr : respond "GET"
        ("/sap/bc/adt/programs/programs/" ++ pathEscape (strToUpper n) ++ "/source/main") with e | b <;>
      simp [clientGetProgram, transportRequest, readRequestPath, hr]
  · rcases hr : respond "GET"
        ("/sap/bc/adt/oo/classes/" ++ pathEscape (strToUpper n) ++ "/source/main") with e | b <;>
      simp [clientGetClass, transportRequest, readRequestPath, hr]
  · rcases hr : respond "GET"
        ("/sap/bc/adt/ddic/tables/" ++ strToUpper n ++ "/source/main") with e | b <;>
      simp [clientGetTable, transportRequest, readRequestPath, hr]

/-! ## C2 — byte-stability of the no-op surgical edit -/

/-- C2: `modifyMessageClassXML` with an empty update map (hence no
updates and no deletions) returns the input bytes unchanged,
byte-for-byte, together with empty updated/deleted lists. -/
theorem modifyMessageClassXML_noop (input : String) (lockHandles : List (String × String)) :
    modifyMessageClassXML input [] lockHandles = (input, [], []) := rfl

/-! ## C3 — name normalization in request URLs -/

/-- C3 counterexample.  The claim: for every kind in the addressing
table and lower-case name `n`, the URL contains the percent-encoding of
upper-case(`n`).  Counterexample at the explicit input
Kind = MessageClass, `n` = "zmc": the URL is
`/sap/bc/adt/messageclass/zmc` and does not contain `ZMC`
(`GetMessageClass` lower-cases the name in the path). -/
theorem messageClass_url_counterexample :
    ¬ ((pathEscape (strToUpper "zmc")).data <:+:
        (readRequestPath ObjectKind.messageClass "zmc").data) := by decide

/-- C3 amended: for Program, Class, Interface, Include, CDS (DDLS),
BDEF, SRVD, SRVB, View and FunctionModule the request URL contains
`url.PathEscape(upper(n))` (so `/` becomes `%2F`); Table and Structure
interpolate the upper-cased name without percent-encoding; MessageClass
uses the percent-encoding of the lower-cased name. -/
theorem readRequestPath_name_normalization (n g f : String) :
    (pathEscape (strToUpper n)).data <:+: (readRequestPath .program n).data ∧
    (pathEscape (strToUpper n)).data <:+: (readRequestPath .oClass n).data ∧
    (pathEscape (strToUpper n)).data <:+: (readRequestPath .oInterface n).data ∧
    (pathEscape (strToUpper n)).data <:+: (readRequestPath .oInclude n).data ∧
    (pathEscape (strToUpper n)).data <:+: (readRequestPath .ddls n).data ∧
    (pathEscape (strToUpper n)).data <:+: (readRequestPath .bdef n).data ∧
    (pathEscape (strToUpper n)).data <:+: (readRequestPath .srvd n).data ∧
    (pathEscape (strToUpper n)).data <:+: (readRequestPath .srvb n).data ∧
    (pathEscape (strToUpper n)).data <:+: (readRequestPath .view n).data ∧
    (pathEscape (strToUpper g)).data <:+: (functionModulePath g f).data ∧
    (pathEscape (strToUpper f)).data <:+: (functionModulePath g f).data ∧
    (strToUpper n).data <:+: (readRequestPath .table n).data ∧
    (strToUpper n).data <:+: (readRequestPath .oStructure n).data ∧
    (pathEscape (strToLower (strToUpper n))).data <:+: (readRequestPath .messageClass n).data := by
  refine ⟨data_infix_mid _ _ _, data_infix_mid _ _ _, data_infix_mid _ _ _,
    data_infix_mid _ _ _, data_infix_mid _ _ _, data_infix_mid _ _ _,
    data_infix_mid _ _ _, data_infix_end _ _, data_infix_mid _ _ _,
    ?_, ?_, data_infix_mid _ _ _, data_infix_mid _ _ _, data_infix_end _ _⟩
  · exact ⟨"/sap/bc/adt/functions/groups/".data,
      ("/fmodules/" ++ pathEscape (strToUpper f) ++ "/source/main").data,
      by simp [functionModulePath, String.data_append]⟩
  · exact ⟨("/sap/bc/adt/functions/groups/" ++ pathEscape (strToUpper g) ++ "/fmodules/").data,
      "/source/main".data, by simp [functionModulePath, String.data_append]⟩

/-! ## C8 — daemon session exclusivity -/

/-- C8: while the daemon session's status is `waiting`, `caught` or
`attached`, a second `POST /session` answers 409 with a failure envelope
and leaves the state untouched; and a new session is created (the
handler answers 200) only when there is no session or its status is
terminal (`attach_failed`, `stopped`, `error`, `timeout` — the code in
fact requires `stopped`). -/
theorem startSession_exclusive (cfgU u : String) (tmo now : Nat) (st : DaemonState) :
    (∀ s, st.session = some s →
      s.status = "waiting" ∨ s.status = "caught" ∨ s.status = "attached" →
      startSession cfgU st u tmo now
        = (st, { status := 409, success := false, data := .errorMsg "session already active" })) ∧
    ((startSession cfgU st u tmo now).2.status = 200 →
      st.session = none ∨ ∃ s, st.session = some s ∧
        (s.status = "attach_failed" ∨ s.status = "stopped" ∨
          s.status = "error" ∨ s.status = "timeout")) := by
  constructor
  · intro s hs hw
    have hne : s.status ≠ "stopped" := by
      rcases hw with h | h | h <;> simp [h]
    simp [startSession, hs, hne]
  · intro h200
    rcases hsess : st.session with _ | s
    · exact Or.inl rfl
    · refine Or.inr ⟨s, rfl, ?_⟩
      by_cases hstop : s.status = "stopped"
      · exact Or.inr (Or.inl hstop)
      · simp [startSession, hsess, hstop] at h200

/-- C8 witness: concrete application at a daemon state with a `waiting`
session. -/
theorem startSession_exclusive_witness :
    startSession "CFGUSER"
        { session := some { id := "dbg-1", status := "waiting", user := "U",
                            startTime := 0, debuggeeId := "", currentUri := "",
                            currentLine := 0, errorMsg := "" } } "" 0 5
      = ({ session := some { id := "dbg-1", status := "waiting", user := "U",
                             startTime := 0, debuggeeId := "", currentUri := "",
                             currentLine := 0, errorMsg := "" } },
         { status := 409, success := false, data := .errorMsg "session already active" }) :=
  (startSession_exclusive "CFGUSER" "" 0 5 _).1 _ rfl (Or.inl rfl)

/-! ## C9 — session endpoints in the no-session state -/

/-- C9 counterexample.  The claim: with no session, both `GET /session`
and `DELETE /session` answer 404 with `{success:false}`.  At the
explicit no-session state, `GET /session` answers 200 with a *success*
envelope (`data.status = "no_session"`), not 404. -/
theorem getSession_no_session_counterexample :
    (getSession { session := none }).status ≠ 404 ∧
    (getSession { session := none }).status = 200 ∧
    (getSession { session := none }).success = true := by decide

/-- C9 amended: in the no-session state `DELETE /session` answers 404
with `{success:false, error:…}` and leaves the state unchanged, while
`GET /session` answers 200 with `{success:true, data:{status:
"no_session"}}`. -/
theorem noSession_endpoint_replies (st : DaemonState) (h : st.session = none) :
    getSession st = { status := 200, success := true, data := .statusField "no_session" } ∧
    (stopSession st).2
      = { status := 404, success := false, data := .errorMsg "no active session" } ∧
    (stopSession st).1 = st := by
  refine ⟨?_, ?_, ?_⟩ <;> simp [getSession, stopSession, h]

/-- C9 witness: concrete application at the empty daemon state. -/
theorem noSession_endpoint_replies_witness :
    getSession { session := none }
        = { status := 200, success := true, data := .statusField "no_session" } ∧
    (stopSession { session := none }).2
        = { status := 404, success := false, data := .errorMsg "no active session" } ∧
    (stopSession { session := none }).1 = ({ session := none } : DaemonState) :=
  noSession_endpoint_replies { session := none } rfl

/-! ## C10 — GetMessageClass path casing and name overwrite -/

/-- C10: `GetMessageClass` sends its single GET to the path built from
the percent-encoded *lower-cased* name, and on success returns a record
whose `name` equals the *upper-cased* input name, overwriting whatever
name the parsed document carried.  The hypothesis `hn` identifies the
code's `ToLower(ToUpper(n))` with the lower-cased input; it holds for
every ASCII name (and is decided at any concrete input). -/
theorem getMessageClass_path_and_name (cfg : Config)
    (respond : String → String → Except String String)
    (parse : String → Except String MessageClassRec)
    (log : TransportLog) (n : String)
    (hn : strToLower (strToUpper n) = strToLower n) :
    (clientGetMessageClass cfg respond parse log n).1.requests
      = log.requests ++ [("GET", "/sap/bc/adt/messageclass/" ++ pathEscape (strToLower n))] ∧
    (pathEscape (strToLower n)).data <:+: (readRequestPath .messageClass n).data ∧
    ∀ mc, (clientGetMessageClass cfg respond parse log n).2 = .ok mc →
      mc.name = strToUpper n := by
  refine ⟨?_, ?_, ?_⟩
  · rcases hr : respond "GET"
        ("/sap/bc/adt/messageclass/" ++ pathEscape (strToLower (strToUpper n))) with e | b
    · rw [hn] at hr
      simp [clientGetMessageClass, transportRequest, hr, hn]
    · rw [hn] at hr
      rcases hp : parse b with pe | mc2 <;>
        simp [clientGetMessageClass, transportRequest, hr, hp, hn]
  · rw [show readRequestPath .messageClass n
        = "/sap/bc/adt/messageclass/" ++ pathEscape (strToLower (strToUpper n)) from rfl, hn]
    exact data_infix_end _ _
  · intro mc h
    rcases hr : respond "GET"
        ("/sap/bc/adt/messageclass/" ++ pathEscape (strToLower (strToUpper n))) with e | b
    · simp [clientGetMessageClass, transportRequest, hr] at h
    · rcases hp : parse b with pe | mc2
      · simp [clientGetMessageClass, transportRequest, hr, hp] at h
      · simp [clientGetMessageClass, transportRequest, hr, hp] at h
        rw [← h]

/-- C10 witness: concrete application at the mixed-case input `"Zmc"`
with a transport double and a parse double whose document carries a
different name (`"SERVER"`); the request path uses `zmc`, the result
name is `ZMC`. -/
theorem getMessageClass_path_and_name_witness :
    strToLower (strToUpper "Zmc") = strToLower "Zmc" ∧
    (clientGetMessageClass { safety := { checkOp := fun _ _ => .ok () } }
        (fun _ _ => .ok "body")
        (fun _ => .ok { name := "SERVER", descr := "", messages := [] })
        { requests := [] } "Zmc").1.requests
      = [("GET", "/sap/bc/adt/messageclass/" ++ pathEscape (strToLower "Zmc"))] ∧
    ({ name := "ZMC", descr := "", messages := [] } : MessageClassRec).name
      = strToUpper "Zmc" :=
  ⟨by decide,
   (getMessageClass_path_and_name _ _ _ _ "Zmc" (by decide)).1,
   (getMessageClass_path_and_name { safety := { checkOp := fun _ _ => .ok () } }
      (fun _ _ => .ok "body")
      (fun _ => .ok { name := "SERVER", descr := "", messages := [] })
      { requests := [] } "Zmc" (by decide)).2.2
      { name := "ZMC", descr := "", messages := [] } rfl⟩

/-! ## C7 — GetClassMethodSource extraction and failure modes -/

/-- C7: `GetClassMethodSource` fails when the method is absent from the
object structure; fails when the found method has `implementationStart`
or `implementationEnd` equal to 0; fails when `implementationEnd`
exceeds the number of source lines; and in the in-range case returns
exactly lines `implementationStart..implementationEnd` (inclusive,
1-based) re-joined with newlines: the extracted list has
`end + 1 - start` entries and its `i`-th entry is line `start - 1 + i`
(0-based) of the source. -/
theorem getClassMethodSource_spec (methods : List MethodInfo) (src cn mn : String) :
    (findMethod methods (strToUpper mn) = none →
      ∃ e, getClassMethodSourcePure methods src cn mn = .error e) ∧
    ∀ m, findMethod methods (strToUpper mn) = some m →
      ((m.implementationStart = 0 ∨ m.implementationEnd = 0) →
        ∃ e, getClassMethodSourcePure methods src cn mn = .error e) ∧
      (m.implementationEnd > (strLines src).length →
        ∃ e, getClassMethodSourcePure methods src cn mn = .error e) ∧
      (1 ≤ m.implementationStart → m.implementationStart ≤ m.implementationEnd →
        m.implementationEnd ≤ (strLines src).length →
        getClassMethodSourcePure methods src cn mn
          = .ok (joinSep "\n"
              (((strLines src).take m.implementationEnd).drop (m.implementationStart - 1))) ∧
        (((strLines src).take m.implementationEnd).drop (m.implementationStart - 1)).length
          = m.implementationEnd + 1 - m.implementationStart ∧
        ∀ i, i < m.implementationEnd + 1 - m.implementationStart →
          (((strLines src).take m.implementationEnd).drop (m.implementationStart - 1))[i]?
            = (strLines src)[m.implementationStart - 1 + i]?) := by
  constructor
  · intro h
    exact ⟨"method " ++ strToUpper mn ++ " not found in class " ++ strToUpper cn,
      by simp [getClassMethodSourcePure, h]⟩
  · intro m hm
    refine ⟨?_, ?_, ?_⟩
    · intro h0
      exact ⟨"method " ++ strToUpper mn ++ " has no implementation",
        by simp [getClassMethodSourcePure, hm, h0]⟩
    · intro hgt
      by_cases h0 : m.implementationStart = 0 ∨ m.implementationEnd = 0
      · exact ⟨"method " ++ strToUpper mn ++ " has no implementation",
          by simp [getClassMethodSourcePure, hm, h0]⟩
      · exact ⟨"method line range exceeds source lines",
          by simp [getClassMethodSourcePure, hm, h0, hgt]⟩
    · intro h1 hle hlen
      have h0 : ¬ (m.implementationStart = 0 ∨ m.implementationEnd = 0) := by omega
      have hgt : ¬ (m.implementationEnd > (strLines src).length) := by omega
      have hcond : m.implementationStart - 1 ≤ m.implementationEnd ∧
          m.implementationEnd ≤ (strLines src).length := by omega
      refine ⟨?_, ?_, ?_⟩
      · simp [getClassMethodSourcePure, hm, h0, hgt, goSlice, hcond]
      · simp only [List.length_drop, List.length_take]
        omega
      · intro i hi
        rw [List.getElem?_drop, List.getElem?_take]
        have : m.implementationStart - 1 + i < m.implementationEnd := by omega
        simp [this]

/-- C7 witness: concrete application — method `M1` spans lines 2-3 of a
4-line source; the extraction yields lines `b` and `c`. -/
theorem getClassMethodSource_spec_witness :
    findMethod [{ name := "M1", implementationStart := 2, implementationEnd := 3 }]
        (strToUpper "m1")
      = some { name := "M1", implementationStart := 2, implementationEnd := 3 } ∧
    getClassMethodSourcePure
        [{ name := "M1", implementationStart := 2, implementationEnd := 3 }]
        "a\nb\nc\nd" "zcl" "m1"
      = .ok (joinSep "\n" (((strLines "a\nb\nc\nd").take 3).drop 1)) ∧
    joinSep "\n" (((strLines "a\nb\nc\nd").take 3).drop 1) = "b\nc" :=
  ⟨by decide,
   ((getClassMethodSource_spec
      [{ name := "M1", implementationStart := 2, implementationEnd := 3 }]
      "a\nb\nc\nd" "zcl" "m1").2
      { name := "M1", implementationStart := 2, implementationEnd := 3 }
      (by decide)).2.2 (by decide) (by decide) (by decide) |>.1,
   by decide⟩

/-! ## C5 — FlattenCallGraph: every pair, pre-order, no dedup -/

mutual

theorem flattenFrom_length (pu pn : String) (l : List CallGraphNode) :
    (flattenFrom pu pn l).length = l.length + countPairsForest l := by
  match l with
  | [] => simp [flattenFrom, countPairsForest]
  | c :: cs =>
    have h1 := flattenNode_length c
    have h2 := flattenFrom_length pu pn cs
    simp [flattenFrom, countPairsForest, h1, h2]
    omega

theorem flattenNode_length (n : CallGraphNode) :
    (flattenNode n).length = countPairsNode n := by
  match n with
  | .mk uri name ty descr li co cs =>
    have h := flattenFrom_length uri name cs
    simp [flattenNode, countPairsNode, h]

end

mutual

theorem flattenFrom_countP (pr : String × String) (pu pn : String) (l : List CallGraphNode) :
    (flattenFrom pu pn l).countP (pairPred pr) = nameOccFrom pr pn l := by
  match l with
  | [] => simp [flattenFrom, nameOccFrom]
  | c :: cs =>
    have h1 := flattenNode_countP pr c
    have h2 := flattenFrom_countP pr pu pn cs
    simp [flattenFrom, nameOccFrom, List.countP_cons, List.countP_append, h1, h2, pairPred]
    by_cases hc : pn = pr.1 ∧ c.name = pr.2
    · simp [hc.1, hc.2]
      try omega
    · rw [if_neg hc]
      have hb : ¬ (pn == pr.1 && c.name == pr.2) = true := by
        simp only [Bool.and_eq_true, beq_iff_eq]
        exact hc
      simp [hb]
      try omega

theorem flattenNode_countP (pr : String × String) (n : CallGraphNode) :
    (flattenNode n).countP (pairPred pr) = nameOccNode pr n := by
  match n with
  | .mk uri name ty descr li co cs =>
    have h := flattenFrom_countP pr uri name cs
    simp [flattenNode, nameOccNode, h]

end

/-- C5: `FlattenCallGraph` yields one edge per parent→child occurrence
with no deduplication: its length is the total number of parent→child
pairs of the tree, and for every (caller name, callee name) pair the
number of matching edges equals the number of matching parent→child
occurrences in the tree (repeated pairs appear repeatedly). -/
theorem flattenCallGraph_edges (root : CallGraphNode) (pr : String × String) :
    (flattenCallGraph (some root)).length = countPairsNode root ∧
    (flattenCallGraph (some root)).countP (pairPred pr) = nameOccNode pr root :=
  ⟨flattenNode_length root, flattenNode_countP pr root⟩

/-! ## C4 — AnalyzeCallGraph statistics -/

theorem dedupAppend_cons (s : List String) (u : String) (l : List String) :
    dedupAppend s (u :: l) = dedupAppend (insertNew s u) l := rfl

theorem dedupAppend_append (s l1 l2 : List String) :
    dedupAppend s (l1 ++ l2) = dedupAppend (dedupAppend s l1) l2 :=
  List.foldl_append _ _ _ _

theorem insertNew_toFinset (s : List String) (u : String) :
    (insertNew s u).toFinset = insert u s.toFinset := by
  unfold insertNew
  split
  · next h => exact (Finset.insert_eq_self.mpr (List.mem_toFinset.mpr h)).symm
  · next h =>
    ext x
    simp
    try tauto

theorem insertNew_nodup (s : List String) (u : String) (h : s.Nodup) :
    (insertNew s u).Nodup := by
  unfold insertNew
  split
  · exact h
  · next hn => simp [List.nodup_append, h, hn]

theorem dedupAppend_toFinset (l s : List String) :
    (dedupAppend s l).toFinset = s.toFinset ∪ l.toFinset := by
  induction l generalizing s with
  | nil => simp [dedupAppend]
  | cons u t ih =>
    rw [dedupAppend_cons, ih, insertNew_toFinset]
    ext x
    simp
    try tauto

theorem dedupAppend_nodup (l s : List String) (h : s.Nodup) :
    (dedupAppend s l).Nodup := by
  induction l generalizing s with
  | nil => exact h
  | cons u t ih => rw [dedupAppend_cons]; exact ih _ (insertNew_nodup _ _ h)

/-! Invariant of the `AnalyzeCallGraph` traversal: the `seen` set grows
by the pre-order URIs (first occurrences appended), `TotalNodes` grows
in lock-step with `seen`, and `TotalEdges` grows by the number of
parent-to-child pairs visited. -/

mutual

theorem analyzeNode_spec (acc : AnalyzeAcc) (d : Nat) (n : CallGraphNode) :
    (analyzeNode acc d n).seen = dedupAppend acc.seen (preorderURIsNode n) ∧
    (analyzeNode acc d n).stats.totalNodes + acc.seen.length
      = acc.stats.totalNodes + (analyzeNode acc d n).seen.length ∧
    (analyzeNode acc d n).stats.totalEdges = acc.stats.totalEdges + countPairsNode n := by
  match n with
  | .mk uri name ty descr li co cs =>
    by_cases hmem : uri ∈ acc.seen
    · have hF := analyzeForest_spec
        { acc with stats := { acc.stats with maxDepth := max acc.stats.maxDepth d } } (d + 1) cs
      have hstep : analyzeNode acc d (.mk uri name ty descr li co cs)
          = analyzeForest
              { acc with stats := { acc.stats with maxDepth := max acc.stats.maxDepth d } }
              (d + 1) cs := by
        simp [analyzeNode, hmem]
      have hins : insertNew acc.seen uri = acc.seen := by simp [insertNew, hmem]
      rw [hstep]
      refine ⟨?_, ?_, ?_⟩
      · rw [hF.1]
        simp [preorderURIsNode, dedupAppend_cons, hins]
      · have h2 := hF.2.1
        dsimp only at h2
        dsimp only
        omega
      · have h3 := hF.2.2
        dsimp only at h3
        dsimp only
        rw [h3]
        simp [countPairsNode]
        try omega
    · have hF := analyzeForest_spec
        { seen := acc.seen ++ [uri],
          stats := { acc.stats with
                     maxDepth := max acc.stats.maxDepth d,
                     totalNodes := acc.stats.totalNodes + 1,
                     nodesByType := bumpType acc.stats.nodesByType ty,
                     uniqueNodes := acc.stats.uniqueNodes ++ [name] } } (d + 1) cs
      have hstep : analyzeNode acc d (.mk uri name ty descr li co cs)
          = analyzeForest
              { seen := acc.seen ++ [uri],
                stats := { acc.stats with
                           maxDepth := max acc.stats.maxDepth d,
                           totalNodes := acc.stats.totalNodes + 1,
                           nodesByType := bumpType acc.stats.nodesByType ty,
                           uniqueNodes := acc.stats.uniqueNodes ++ [name] } } (d + 1) cs := by
        simp [analyzeNode, hmem]
      have hins : insertNew acc.seen uri = acc.seen ++ [uri] := by simp [insertNew, hmem]
      rw [hstep]
      refine ⟨?_, ?_, ?_⟩
      · rw [hF.1]
        simp [preorderURIsNode, dedupAppend_cons, hins]
      · have h2 := hF.2.1
        dsimp only at h2
        simp only [List.length_append, List.length_cons, List.length_nil] at h2
        dsimp only
        omega
      · have h3 := hF.2.2
        dsimp only at h3
        dsimp only
        rw [h3]
        simp [countPairsNode]
        try omega

theorem analyzeForest_spec (acc : AnalyzeAcc) (d : Nat) (l : List CallGraphNode) :
    (analyzeForest acc d l).seen = dedupAppend acc.seen (preorderURIsForest l) ∧
    (analyzeForest acc d l).stats.totalNodes + acc.seen.length
      = acc.stats.totalNodes + (analyzeForest acc d l).seen.length ∧
    (analyzeForest acc d l).stats.totalEdges
      = acc.stats.totalEdges + l.length + countPairsForest l := by
  match l with
  | [] => simp [analyzeForest, preorderURIsForest, countPairsForest, dedupAppend]
  | c :: cs =>
    have hN := analyzeNode_spec
      { acc with stats := { acc.stats with totalEdges := acc.stats.totalEdges + 1 } } d c
    have hF := analyzeForest_spec
      (analyzeNode
        { acc with stats := { acc.stats with totalEdges := acc.stats.totalEdges + 1 } } d c)
      d cs
    have hstep : analyzeForest acc d (c :: cs)
        = analyzeForest
            (analyzeNode
              { acc with stats := { acc.stats with totalEdges := acc.stats.totalEdges + 1 } }
              d c) d cs := by
      simp [analyzeForest]
    rw [hstep]
    refine ⟨?_, ?_, ?_⟩
    · rw [hF.1, hN.1]
      simp [preorderURIsForest, dedupAppend_append]
    · have h1 := hN.2.1
      have h2 := hF.2.1
      dsimp only at h1 h2
      dsimp only
      omega
    · have h1 := hN.2.2
      have h2 := hF.2.2
      dsimp only at h1 h2
      dsimp only
      rw [h2, h1]
      simp [countPairsForest]
      try omega

end

/-- C4: `AnalyzeCallGraph` returns `TotalNodes` equal to the number of
distinct node URIs of the tree (each unique URI counted exactly once)
and `TotalEdges` equal to the total number of parent-to-child pairs. -/
theorem analyzeCallGraph_stats (root : CallGraphNode) :
    (analyzeCallGraph (some root)).totalNodes = (preorderURIsNode root).toFinset.card ∧
    (analyzeCallGraph (some root)).totalEdges = countPairsNode root := by
  have h := analyzeNode_spec
    { seen := [],
      stats := { totalNodes := 0, totalEdges := 0, maxDepth := 0,
                 nodesByType := [], uniqueNodes := [] } } 0 root
  obtain ⟨hseen, htn, hte⟩ := h
  constructor
  · have hcg : (analyzeCallGraph (some root)).totalNodes
        = (analyzeNode
            { seen := [],
              stats := { totalNodes := 0, totalEdges := 0, maxDepth := 0,
                         nodesByType := [], uniqueNodes := [] } } 0 root).stats.totalNodes := rfl
    dsimp only at htn
    simp only [List.length_nil, Nat.add_zero, Nat.zero_add] at htn
    rw [hcg, htn, hseen]
    have hnd := dedupAppend_nodup (preorderURIsNode root) [] List.nodup_nil
    rw [← List.toFinset_card_of_nodup hnd, dedupAppend_toFinset]
    simp
  · have hcg : (analyzeCallGraph (some root)).totalEdges
        = (analyzeNode
            { seen := [],
              stats := { totalNodes := 0, totalEdges := 0, maxDepth := 0,
                         nodesByType := [], uniqueNodes := [] } } 0 root).stats.totalEdges := rfl
    dsimp only at hte
    rw [hcg, hte]
    omega

/-! ## C6 — CompareCallGraphs partition and coverage -/

theorem mapHas_iff (m : List (String × CallGraphEdge)) (k : String) :
    mapHas m k = true ↔ k ∈ m.map Prod.fst := by
  simp [mapHas, List.any_eq_true, List.mem_map, beq_iff_eq]

theorem mapPut_fst (m : List (String × CallGraphEdge)) (k : String) (e : CallGraphEdge) :
    (mapPut m k e).map Prod.fst
      = if m.any (fun p => p.1 == k) then m.map Prod.fst else m.map Prod.fst ++ [k] := by
  unfold mapPut
  by_cases h : m.any (fun p => p.1 == k)
  · rw [if_pos h, if_pos h, List.map_map]
    apply List.map_congr_left
    intro p hp
    by_cases hb : (p.1 == k) = true
    · have hpk : p.1 = k := by simpa using hb
      simp [Function.comp, hb, hpk]
    · simp [Function.comp, hb]
  · rw [if_neg h, if_neg h]
    simp

theorem mapPut_nodup_fst (m : List (String × CallGraphEdge)) (k : String) (e : CallGraphEdge)
    (h : (m.map Prod.fst).Nodup) : ((mapPut m k e).map Prod.fst).Nodup := by
  rw [mapPut_fst]
  by_cases ha : m.any (fun p => p.1 == k)
  · simp [ha, h]
  · have hk : k ∉ m.map Prod.fst := by
      intro hmem
      rcases List.mem_map.mp hmem with ⟨q, hq, hfq⟩
      rw [List.any_eq_true] at ha
      exact ha ⟨q, hq, by simp [hfq]⟩
    simp [ha, List.nodup_append, h, hk]

theorem mapPut_fst_toFinset (m : List (String × CallGraphEdge)) (k : String) (e : CallGraphEdge) :
    ((mapPut m k e).map Prod.fst).toFinset = insert k (m.map Prod.fst).toFinset := by
  rw [mapPut_fst]
  by_cases ha : m.any (fun p => p.1 == k)
  · have hk : k ∈ m.map Prod.fst := by
      rw [List.any_eq_true] at ha
      rcases ha with ⟨q, hq, hb⟩
      exact List.mem_map.mpr ⟨q, hq, by simpa using hb⟩
    rw [if_pos ha]
    exact (Finset.insert_eq_self.mpr (List.mem_toFinset.mpr hk)).symm
  · rw [if_neg ha]
    ext x
    simp
    try tauto

theorem mapPut_mem (m : List (String × CallGraphEdge)) (k : String) (e : CallGraphEdge)
    (p : String × CallGraphEdge) (hp : p ∈ mapPut m k e) : p ∈ m ∨ p = (k, e) := by
  unfold mapPut at hp
  by_cases ha : m.any (fun q => q.1 == k)
  · rw [if_pos ha] at hp
    rcases List.mem_map.mp hp with ⟨q, hq, hfq⟩
    by_cases hb : (q.1 == k) = true
    · right
      rw [← hfq]
      simp [hb]
    · left
      rw [← hfq]
      simpa [hb] using hq
  · rw [if_neg ha] at hp
    rcases List.mem_append.mp hp with h | h
    · exact Or.inl h
    · right
      simpa using h

theorem buildAux_fst_toFinset (l : List CallGraphEdge) (m : List (String × CallGraphEdge)) :
    ((l.foldl (fun m e => mapPut m (edgeKey e) e) m).map Prod.fst).toFinset
      = (m.map Prod.fst).toFinset ∪ (l.map edgeKey).toFinset := by
  induction l generalizing m with
  | nil => simp
  | cons e t ih =>
    rw [List.foldl_cons, ih, mapPut_fst_toFinset]
    ext x
    simp
    try tauto

theorem buildAux_fst_nodup (l : List CallGraphEdge) (m : List (String × CallGraphEdge))
    (h : (m.map Prod.fst).Nodup) :
    ((l.foldl (fun m e => mapPut m (edgeKey e) e) m).map Prod.fst).Nodup := by
  induction l generalizing m with
  | nil => exact h
  | cons e t ih =>
    rw [List.foldl_cons]
    exact ih _ (mapPut_nodup_fst _ _ _ h)

theorem buildAux_key_eq (l : List CallGraphEdge) (m : List (String × CallGraphEdge))
    (hm : ∀ q ∈ m, q.1 = edgeKey q.2) (p : String × CallGraphEdge)
    (hp : p ∈ l.foldl (fun m e => mapPut m (edgeKey e) e) m) : p.1 = edgeKey p.2 := by
  induction l generalizing m with
  | nil => exact hm p hp
  | cons e t ih =>
    rw [List.foldl_cons] at hp
    refine ih _ ?_ hp
    intro q hq
    rcases mapPut_mem _ _ _ q hq with h | h
    · exact hm q h
    · rw [h]

theorem buildEdgeMap_fst_toFinset (l : List CallGraphEdge) :
    ((buildEdgeMap l).map Prod.fst).toFinset = (l.map edgeKey).toFinset := by
  have h := buildAux_fst_toFinset l []
  simpa [buildEdgeMap] using h

theorem buildEdgeMap_fst_nodup (l : List CallGraphEdge) :
    ((buildEdgeMap l).map Prod.fst).Nodup :=
  buildAux_fst_nodup l [] (by simp)

theorem buildEdgeMap_key_eq (l : List CallGraphEdge) (p : String × CallGraphEdge)
    (hp : p ∈ buildEdgeMap l) : p.1 = edgeKey p.2 :=
  buildAux_key_eq l [] (by simp) p hp

theorem buildEdgeMap_key_mem (l : List CallGraphEdge) (p : String × CallGraphEdge)
    (hp : p ∈ buildEdgeMap l) : p.1 ∈ l.map edgeKey := by
  have h1 : p.1 ∈ (buildEdgeMap l).map Prod.fst := List.mem_map.mpr ⟨p, hp, rfl⟩
  have h2 := buildEdgeMap_fst_toFinset l
  have h3 : p.1 ∈ ((buildEdgeMap l).map Prod.fst).toFinset := List.mem_toFinset.mpr h1
  rw [h2] at h3
  exact List.mem_toFinset.mp h3

theorem mapHas_buildEdgeMap (l : List CallGraphEdge) (k : String) :
    mapHas (buildEdgeMap l) k = true ↔ k ∈ l.map edgeKey := by
  rw [mapHas_iff]
  constructor
  · intro h
    have := List.mem_toFinset.mpr h
    rw [buildEdgeMap_fst_toFinset] at this
    exact List.mem_toFinset.mp this
  · intro h
    have := List.mem_toFinset.mpr h
    rw [← buildEdgeMap_fst_toFinset] at this
    exact List.mem_toFinset.mp this

theorem length_filter_partition {α : Type} (l : List α) (p : α → Bool) :
    (l.filter p).length + (l.filter (fun a => !p a)).length = l.length := by
  induction l with
  | nil => rfl
  | cons a t ih =>
    by_cases h : p a <;> simp [List.filter_cons, h] <;> omega

/-- C6: `CompareCallGraphs` keys the edges by the `caller->callee` name
pair and partitions the keys: common and static-only edges together
cover each distinct static key exactly once; every common edge key
occurs in both inputs, a static-only key only in `static`, an
actual-only key only in `actual`; and the coverage ratio is
`|common| / |static list|` when the static list is non-empty and 0
otherwise. -/
theorem compareCallGraphs_spec (s a : List CallGraphEdge) :
    (compareCallGraphs s a).commonEdges.length + (compareCallGraphs s a).staticOnly.length
      = (s.map edgeKey).toFinset.card ∧
    (∀ e ∈ (compareCallGraphs s a).commonEdges,
        edgeKey e ∈ s.map edgeKey ∧ edgeKey e ∈ a.map edgeKey) ∧
    (∀ e ∈ (compareCallGraphs s a).staticOnly,
        edgeKey e ∈ s.map edgeKey ∧ edgeKey e ∉ a.map edgeKey) ∧
    (∀ e ∈ (compareCallGraphs s a).actualOnly,
        edgeKey e ∈ a.map edgeKey ∧ edgeKey e ∉ s.map edgeKey) ∧
    (compareCallGraphs s a).coverage
      = if s = [] then 0
        else ((compareCallGraphs s a).commonEdges.length : ℚ) / (s.length : ℚ) := by
  refine ⟨?_, ?_, ?_, ?_, ?_⟩
  · show (((buildEdgeMap s).filter fun p => mapHas (buildEdgeMap a) p.1).map Prod.snd).length
        + (((buildEdgeMap s).filter fun p => !mapHas (buildEdgeMap a) p.1).map Prod.snd).length
        = (s.map edgeKey).toFinset.card
    rw [List.length_map, List.length_map, length_filter_partition]
    have h1 : (buildEdgeMap s).length = ((buildEdgeMap s).map Prod.fst).length :=
      (List.length_map _ _).symm
    rw [h1, ← List.toFinset_card_of_nodup (buildEdgeMap_fst_nodup s),
      buildEdgeMap_fst_toFinset]
  · intro e he
    rcases List.mem_map.mp he with ⟨p, hp, hpe⟩
    rcases List.mem_filter.mp hp with ⟨hpm, hhas⟩
    have hk := buildEdgeMap_key_eq s p hpm
    have hks : p.1 ∈ s.map edgeKey := buildEdgeMap_key_mem s p hpm
    have hka : p.1 ∈ a.map edgeKey := (mapHas_buildEdgeMap a p.1).mp hhas
    rw [← hpe, ← hk]
    exact ⟨hks, hka⟩
  · intro e he
    rcases List.mem_map.mp he with ⟨p, hp, hpe⟩
    rcases List.mem_filter.mp hp with ⟨hpm, hhas⟩
    have hk := buildEdgeMap_key_eq s p hpm
    have hks : p.1 ∈ s.map edgeKey := buildEdgeMap_key_mem s p hpm
    have hka : p.1 ∉ a.map edgeKey := by
      intro hmem
      have := (mapHas_buildEdgeMap a p.1).mpr hmem
      simp [this] at hhas
    rw [← hpe, ← hk]
    exact ⟨hks, hka⟩
  · intro e he
    rcases List.mem_map.mp he with ⟨p, hp, hpe⟩
    rcases List.mem_filter.mp hp with ⟨hpm, hhas⟩
    have hk := buildEdgeMap_key_eq a p hpm
    have hka : p.1 ∈ a.map edgeKey := buildEdgeMap_key_mem a p hpm
    have hks : p.1 ∉ s.map edgeKey := by
      intro hmem
      have := (mapHas_buildEdgeMap s p.1).mpr hmem
      simp [this] at hhas
    rw [← hpe, ← hk]
    exact ⟨hka, hks⟩
  · rcases s with _ | ⟨x, t⟩
    · simp [compareCallGraphs]
    · have hne : ¬ ((x :: t : List CallGraphEdge) = []) := by simp
      have hlen : (0 : Nat) < (x :: t : List CallGraphEdge).length := by simp
      simp only [compareCallGraphs, if_neg hne, hlen, if_pos, gt_iff_lt]


/-- C6 witness: concrete application with one common edge (`A->B`), one
static-only edge (`A->C`) and one actual-only edge (`D->B`). -/
theorem compareCallGraphs_spec_witness :
    (edgeKey (⟨"u1", "A", "u2", "B", 0⟩ : CallGraphEdge)
        ∈ ([⟨"u1", "A", "u2", "B", 0⟩, ⟨"u1", "A", "u3", "C", 0⟩] : List CallGraphEdge).map edgeKey
      ∧ edgeKey (⟨"u1", "A", "u2", "B", 0⟩ : CallGraphEdge)
        ∈ ([⟨"u1", "A", "u2", "B", 0⟩, ⟨"u4", "D", "u2", "B", 0⟩] : List CallGraphEdge).map edgeKey) ∧
    (edgeKey (⟨"u1", "A", "u3", "C", 0⟩ : CallGraphEdge)
        ∈ ([⟨"u1", "A", "u2", "B", 0⟩, ⟨"u1", "A", "u3", "C", 0⟩] : List CallGraphEdge).map edgeKey
      ∧ edgeKey (⟨"u1", "A", "u3", "C", 0⟩ : CallGraphEdge)
        ∉ ([⟨"u1", "A", "u2", "B", 0⟩, ⟨"u4", "D", "u2", "B", 0⟩] : List CallGraphEdge).map edgeKey) ∧
    (edgeKey (⟨"u4", "D", "u2", "B", 0⟩ : CallGraphEdge)
        ∈ ([⟨"u1", "A", "u2", "B", 0⟩, ⟨"u4", "D", "u2", "B", 0⟩] : List CallGraphEdge).map edgeKey
      ∧ edgeKey (⟨"u4", "D", "u2", "B", 0⟩ : CallGraphEdge)
        ∉ ([⟨"u1", "A", "u2", "B", 0⟩, ⟨"u1", "A", "u3", "C", 0⟩] : List CallGraphEdge).map edgeKey) :=
  ⟨(compareCallGraphs_spec [⟨"u1", "A", "u2", "B", 0⟩, ⟨"u1", "A", "u3", "C", 0⟩]
      [⟨"u1", "A", "u2", "B", 0⟩, ⟨"u4", "D", "u2", "B", 0⟩]).2.1
      ⟨"u1", "A", "u2", "B", 0⟩ (by decide),
   (compareCallGraphs_spec [⟨"u1", "A", "u2", "B", 0⟩, ⟨"u1", "A", "u3", "C", 0⟩]
      [⟨"u1", "A", "u2", "B", 0⟩, ⟨"u4", "D", "u2", "B", 0⟩]).2.2.1
      ⟨"u1", "A", "u3", "C", 0⟩ (by decide),
   (compareCallGraphs_spec [⟨"u1", "A", "u2", "B", 0⟩, ⟨"u1", "A", "u3", "C", 0⟩]
      [⟨"u1", "A", "u2", "B", 0⟩, ⟨"u4", "D", "u2", "B", 0⟩]).2.2.2.1
      ⟨"u4", "D", "u2", "B", 0⟩ (by decide)⟩

end VSP
